import Mathlib

/-!
# Verification of gastown's addressing, nudge delivery, mail routing and wisp ledger

Shallow embedding of the Go sources:
* `internal/cmd/session.go` — `parseAddress`
* `internal/mail/router.go` — `Send`, `notifyRecipient`, `addressToSessionID`
* `internal/cmd/rig_helpers.go` — `runNudge` (the `gt nudge` command)
* `docs/wisp-architecture.md` — the wisp ledger state machine (modelled from the
  spec, since the implementing store is external to this repository)

Strings are embedded as `List Char` (Go strings are byte sequences; all the
addresses involved are ASCII), so that every definition is executable and
decidable on concrete inputs.
-/

namespace Gastown

/-- Go's `strings.SplitN(s, sep, 2)`: split at the FIRST occurrence of the
separator. Returns `(s, none)` when the separator does not occur (Go returns
the one-element slice `[s]`), and `(before, some after)` otherwise. -/
def splitN2 (sep : Char) : List Char → List Char × Option (List Char)
  | [] => ([], none)
  | c :: rest =>
    if c = sep then ([], some rest)
    else
      let p := splitN2 sep rest
      (c :: p.1, p.2)

/-- Error type for address parsing: `session.go` returns
`fmt.Errorf("invalid address format: expected 'rig/polecat', got '%s'", addr)`,
the spec's `InvalidFormat`. -/
inductive AddrError where
  | invalidFormat (raw : List Char)
deriving DecidableEq, Repr

/-- `parseAddress` from `internal/cmd/session.go`:

```go
parts := strings.SplitN(addr, "/", 2)
if len(parts) != 2 || parts[0] == "" || parts[1] == "" {
    return "", "", fmt.Errorf("invalid address format: ...")
}
return parts[0], parts[1], nil
```
-/
def parseAddress (addr : List Char) : Except AddrError (List Char × List Char) :=
  match splitN2 '/' addr with
  | (_, none) => .error (.invalidFormat addr)
  | (r, some n) =>
    if r = [] ∨ n = [] then .error (.invalidFormat addr)
    else .ok (r, n)

/-- `addressToSessionID` from `internal/mail/router.go`:

```go
if strings.HasPrefix(address, "mayor") { return "gt-mayor" }
parts := strings.SplitN(address, "/", 2)
if len(parts) != 2 || parts[1] == "" { return "" }
return fmt.Sprintf("gt-%s-%s", parts[0], parts[1])
```
-/
def addressToSessionID (address : List Char) : List Char :=
  if ("mayor".data).isPrefixOf address then "gt-mayor".data
  else
    match splitN2 '/' address with
    | (_, none) => []
    | (rig, some target) =>
      if target = [] then []
      else "gt-".data ++ rig ++ "-".data ++ target

/-! ## The nudge command (`internal/cmd/rig_helpers.go`, `runNudge`) -/

/-- Observable tmux operations issued while nudging. -/
inductive TmuxOp where
  /-- `tmux send-keys -l <text>`: literal paste, no key-code interpretation. -/
  | pasteLiteral (session text : List Char)
  /-- fixed settle wait, in milliseconds. -/
  | settleDelay (ms : Nat)
  /-- `tmux send-keys Enter` as its own command. -/
  | sendEnter (session : List Char)
  /-- `tmux has-session` query. -/
  | queryHasSession (session : List Char)
deriving DecidableEq, Repr

/-- Errors `runNudge` can return. -/
inductive NudgeError where
  /-- `HasSession` itself errored ("checking session"). -/
  | checkFailed (session : List Char)
  /-- raw-name target: `session %q not found`. -/
  | sessionNotFound (session : List Char)
  /-- `parseAddress` failed. -/
  | invalidAddress (e : AddrError)
  /-- `getSessionManager` failed (rig not found / not in a workspace). -/
  | rigNotFound (rig : List Char)
  /-- `NudgeSession` failed ("nudging session"). -/
  | sendFailed (session : List Char)
deriving DecidableEq, Repr

/-- Environment of one `runNudge` invocation: the sender tag computed from
`GetRole()` (the role switch in lines 90-109 of `rig_helpers.go`), the tmux
`HasSession` oracle, whether tmux accepts sends to a given session, and whether
`getSessionManager` succeeds for a rig. -/
structure NudgeEnv where
  sender : List Char
  hasSession : List Char → Except Unit Bool
  sendOk : List Char → Bool
  rigExists : List Char → Bool

/-- Modelled from the spec: the Deacon session name. The command help in
`rig_helpers.go` documents `deacon    Maps to the Deacon session (gt-deacon)`;
the constant `DeaconSessionName` itself is outside this repository slice. -/
def deaconSessionName : List Char := "gt-deacon".data

/-- Modelled from the spec: `session.Manager.SessionName` (package
`internal/session`, outside this slice) derives the polecat session name by the
fixed-prefix concatenation of spec §4.1; `router.go` documents the result as
`Polecat: gt-rig-polecat`. -/
def managerSessionName (rig polecat : List Char) : List Char :=
  "gt-".data ++ rig ++ "-".data ++ polecat

/-- Modelled from the spec: `crewSessionName` (outside this slice) derives the
crew session name from rig and crew name, `gt-<rig>-crew-<name>`, following the
same fixed-prefix scheme for the `rig/crew/name` sub-form of §4.1. -/
def crewSessionName (rig crew : List Char) : List Char :=
  "gt-".data ++ rig ++ "-crew-".data ++ crew

/-- Modelled from the spec: `tmux.NudgeSession` (package `internal/tmux`,
outside this slice) performs the two-phase injection of §4.3, documented in the
`gt nudge` help text: (1) literal-mode paste, (2) 500 ms settle wait, (3) Enter
as a separate command. This is the operation trace of one call. -/
def nudgeSessionOps (session text : List Char) : List TmuxOp :=
  [.pasteLiteral session text, .settleDelay 500, .sendEnter session]

/-- `message = fmt.Sprintf("[from %s] %s", sender, message)`. -/
def prefixedMessage (sender message : List Char) : List Char :=
  "[from ".data ++ sender ++ "] ".data ++ message

/-- `runNudge` from `internal/cmd/rig_helpers.go`, returning its result and the
trace of tmux operations it performed. Branches, in source order: the special
`deacon` target (missing deacon session is a silent skip returning nil); a
target containing `/` parsed by `parseAddress`, with `crew/` sub-addresses
resolved without a session manager; otherwise a raw session name, which
requires the session to exist. `NudgeSession` is attempted exactly where the
source calls it, and fails when the environment rejects sends to that session. -/
def runNudge (env : NudgeEnv) (target message : List Char) :
    Except NudgeError Unit × List TmuxOp :=
  let msg := prefixedMessage env.sender message
  if target = "deacon".data then
    match env.hasSession deaconSessionName with
    | .error _ => (.error (.checkFailed deaconSessionName), [.queryHasSession deaconSessionName])
    | .ok false => (.ok (), [.queryHasSession deaconSessionName])
    | .ok true =>
      if env.sendOk deaconSessionName then
        (.ok (), .queryHasSession deaconSessionName :: nudgeSessionOps deaconSessionName msg)
      else
        (.error (.sendFailed deaconSessionName),
          .queryHasSession deaconSessionName :: nudgeSessionOps deaconSessionName msg)
  else if '/' ∈ target then
    match parseAddress target with
    | .error e => (.error (.invalidAddress e), [])
    | .ok (rigName, polecatName) =>
      if ("crew/".data).isPrefixOf polecatName then
        let sessionName := crewSessionName rigName (polecatName.drop 5)
        if env.sendOk sessionName then (.ok (), nudgeSessionOps sessionName msg)
        else (.error (.sendFailed sessionName), nudgeSessionOps sessionName msg)
      else
        if env.rigExists rigName then
          let sessionName := managerSessionName rigName polecatName
          if env.sendOk sessionName then (.ok (), nudgeSessionOps sessionName msg)
          else (.error (.sendFailed sessionName), nudgeSessionOps sessionName msg)
        else (.error (.rigNotFound rigName), [])
  else
    match env.hasSession target with
    | .error _ => (.error (.checkFailed target), [.queryHasSession target])
    | .ok false => (.error (.sessionNotFound target), [.queryHasSession target])
    | .ok true =>
      if env.sendOk target then
        (.ok (), .queryHasSession target :: nudgeSessionOps target msg)
      else
        (.error (.sendFailed target), .queryHasSession target :: nudgeSessionOps target msg)

/-- The injection operations of a trace: everything except liveness queries. -/
def injectionOps (ops : List TmuxOp) : List TmuxOp :=
  ops.filter fun op =>
    match op with
    | .queryHasSession _ => false
    | _ => true

/-! ## The mail router (`internal/mail/router.go`, `Send`) -/

/-- Message priority, spec §3: `enum{Low,Normal,High,Urgent}`. -/
inductive Priority where
  | low | normal | high | urgent
deriving DecidableEq, Repr

/-- Modelled from the spec: the mail package's message types (the `Message` Go
type is outside this slice; spec §3 gives `enum{Notification, Request, Reply, ...}`
with Notification the default). Each type renders to a non-empty string. -/
inductive MsgType where
  | notification | request | reply
deriving DecidableEq, Repr

/-- The string form of a message type (`string(msg.Type)`). -/
def MsgType.render : MsgType → List Char
  | .notification => "notification".data
  | .request => "request".data
  | .reply => "reply".data

/-- Modelled from the spec: the mail package's `Message` struct (outside this
slice; `router.go` reads exactly these fields). `sendFrom`/`sendTo` are the raw
address strings; `threadID`/`replyTo` are empty when absent. -/
structure Message where
  sendFrom : List Char
  sendTo : List Char
  subject : List Char
  body : List Char
  priority : Priority
  msgType : MsgType
  threadID : List Char
  replyTo : List Char
  pinned : Bool

/-- Modelled from the spec: `addressToIdentity` (mail package, outside this
slice) derives the beads assignee identity from an address string (§4.4:
"assignee = recipient identity derived from `to`"). -/
def addressToIdentity (a : List Char) : List Char := a

/-- Modelled from the spec: `PriorityToBeads`, the fixed four-level mapping of
§4.4 onto the beads integer range; urgent maps to the top of the range
(0 is the most urgent beads priority). -/
def PriorityToBeads : Priority → Nat
  | .urgent => 0
  | .high => 1
  | .normal => 2
  | .low => 3

/-- The label list `Send` builds (`router.go` lines 34-44): always the sender
label, then thread and reply-to when non-empty, then the message type unless it
is empty or the default Notification. -/
def sendLabels (msg : Message) : List (List Char) :=
  let l0 := ["from:".data ++ addressToIdentity msg.sendFrom]
  let l1 := if msg.threadID = [] then l0 else l0 ++ ["thread:".data ++ msg.threadID]
  let l2 := if msg.replyTo = [] then l1 else l1 ++ ["reply-to:".data ++ msg.replyTo]
  if msg.msgType.render ≠ [] ∧ msg.msgType ≠ .notification then
    l2 ++ ["msg-type:".data ++ msg.msgType.render]
  else l2

/-- Observable operations of one `Send` call. -/
inductive SendOp where
  /-- `bd create --type message --assignee .. --title .. -d .. --priority .. --labels ..`. -/
  | createRecord (assignee title body : List Char) (priority : Nat) (labels : List (List Char))
  /-- `bd pin <id>`; `succeeded` records the discarded outcome of the attempt. -/
  | pinRecord (id : List Char) (succeeded : Bool)
  /-- `tmux has-session` liveness query. -/
  | queryLive (session : List Char)
  /-- `SendNotificationBanner(sessionID, from, subject)`. -/
  | sendBanner (session sender subject : List Char)
deriving DecidableEq, Repr

/-- Environment of one `Send` call: the result of `bd create` (error text, or
its stdout holding the new issue id), whether `bd pin` would succeed, the tmux
session oracle, and whether the notification banner send would succeed. -/
structure MailEnv where
  createResult : Except (List Char) (List Char)
  pinOk : Bool
  hasSession : List Char → Except Unit Bool
  bannerOk : Bool

/-- Go's `strings.TrimSpace`. -/
def trimSpace (s : List Char) : List Char :=
  ((s.dropWhile fun c => c.isWhitespace).reverse.dropWhile fun c => c.isWhitespace).reverse

/-- `notifyRecipient` from `router.go`: resolve the recipient's session id; an
unrecognized address, a `HasSession` error, or an absent session all return nil
with no banner; otherwise send the banner, whose failure is the only error. -/
def notifyRecipient (env : MailEnv) (msg : Message) : Except Unit Unit × List SendOp :=
  let sessionID := addressToSessionID msg.sendTo
  if sessionID = [] then (.ok (), [])
  else
    match env.hasSession sessionID with
    | .error _ => (.ok (), [.queryLive sessionID])
    | .ok false => (.ok (), [.queryLive sessionID])
    | .ok true =>
      if env.bannerOk then
        (.ok (), [.queryLive sessionID, .sendBanner sessionID msg.sendFrom msg.subject])
      else
        (.error (), [.queryLive sessionID, .sendBanner sessionID msg.sendFrom msg.subject])

/-- `Send` from `router.go`, with its operation trace. One `bd create`; on
failure its error is returned. On success the issue id is the trimmed stdout;
if `msg.Pinned` and the id is non-empty a best-effort `bd pin` runs with its
result discarded (`_ = pinCmd.Run()`); then `notifyRecipient` runs with its
result discarded (`_ = r.notifyRecipient(msg)`); `Send` returns nil. -/
def Send (env : MailEnv) (msg : Message) : Except (List Char) Unit × List SendOp :=
  let createOp := SendOp.createRecord (addressToIdentity msg.sendTo) msg.subject msg.body
    (PriorityToBeads msg.priority) (sendLabels msg)
  match env.createResult with
  | .error e => (.error e, [createOp])
  | .ok stdout =>
    let issueID := trimSpace stdout
    let pinOps := if msg.pinned ∧ issueID ≠ [] then [SendOp.pinRecord issueID env.pinOk] else []
    (.ok (), createOp :: (pinOps ++ (notifyRecipient env msg).2))

/-! ## The wisp ledger (`docs/wisp-architecture.md`)

The store implementing these operations (`bd mol bond/step/squash/burn`) is
external to this repository; the whole ledger is modelled from the spec's
storage-behavior table and lifecycle diagram. -/

/-- A molecule step: `{id, status: Pending|Complete}`. -/
structure MolStep where
  id : Nat
  complete : Bool
deriving DecidableEq, Repr

/-- Modelled from the spec: a molecule, `{id, protoName, steps, wisp, parent}`
(spec §3); `parent` is the parent reference a digest will carry. -/
structure Molecule where
  id : Nat
  protoName : List Char
  steps : List MolStep
  wisp : Bool
  parent : Option Nat
deriving DecidableEq, Repr

/-- Modelled from the spec: a digest record,
`{id, title, description, parent, squashed_from, ...}` (wisp-architecture.md,
Digest Format). -/
structure Digest where
  id : Nat
  title : List Char
  description : List Char
  parent : Option Nat
  squashedFrom : Nat
deriving DecidableEq, Repr

/-- A record of the durable store `.beads/issues.jsonl`: an active molecule, a
molecule marked abandoned by `burn`, or a digest. -/
inductive DurableRecord where
  | active (m : Molecule)
  | abandoned (m : Molecule)
  | digest (d : Digest)
deriving DecidableEq, Repr

/-- Modelled from the spec: the two stores — ephemeral `.beads-wisp/` and
durable `.beads/` — plus the store's id allocator. -/
structure LedgerState where
  wisps : List Molecule
  durable : List DurableRecord
  nextId : Nat
deriving Repr

/-- The empty initial state. -/
def initState : LedgerState := ⟨[], [], 0⟩

/-- Modelled from the spec: `bd mol bond <proto> [--wisp]` — creates the
molecule in `.beads-wisp/` with `--wisp`, else in `.beads/`. Returns the new
molecule id. -/
def bond (s : LedgerState) (protoName : List Char) (steps : List MolStep)
    (parent : Option Nat) (wisp : Bool) : Nat × LedgerState :=
  let m : Molecule := ⟨s.nextId, protoName, steps, wisp, parent⟩
  if wisp then
    (m.id, { s with wisps := m :: s.wisps, nextId := s.nextId + 1 })
  else
    (m.id, { s with durable := .active m :: s.durable, nextId := s.nextId + 1 })

/-- Mark one step of a step list complete. -/
def markStep (steps : List MolStep) (stepId : Nat) : List MolStep :=
  steps.map fun st => if st.id = stepId then { st with complete := true } else st

/-- Update one molecule in place when its id matches. -/
def stepIfMatch (molId stepId : Nat) (m : Molecule) : Molecule :=
  if m.id = molId then { m with steps := markStep m.steps stepId } else m

/-- Update an active durable molecule in place when its id matches. -/
def stepDur (molId stepId : Nat) : DurableRecord → DurableRecord
  | .active m => .active (stepIfMatch molId stepId m)
  | other => other

/-- Modelled from the spec: `bd mol step` — updates the molecule in the wisp
store with `--wisp`, in the permanent store without. -/
def stepMol (s : LedgerState) (molId stepId : Nat) : LedgerState :=
  { s with
    wisps := s.wisps.map (stepIfMatch molId stepId),
    durable := s.durable.map (stepDur molId stepId) }

/-- The active durable molecule with a given id, if this record is it. -/
def activeWithId (molId : Nat) : DurableRecord → Option Molecule
  | .active m => if m.id = molId then some m else none
  | _ => none

/-- Modelled from the spec: `bd mol squash` — for a wisp molecule, deletes it
from the wisp store and creates a digest in the permanent store referencing the
molecule's parent and original id (`squashed_from`); for a non-wisp molecule,
creates the digest in the permanent store; unknown molecules fail. -/
def squash (s : LedgerState) (molId : Nat) (summary : List Char) :
    Except Unit (Nat × LedgerState) :=
  match s.wisps.find? (fun m => m.id = molId) with
  | some m =>
    let d : Digest := ⟨s.nextId, m.protoName, summary, m.parent, m.id⟩
    .ok (d.id, { s with
      wisps := s.wisps.filter fun m' => ¬ m'.id = molId,
      durable := .digest d :: s.durable,
      nextId := s.nextId + 1 })
  | none =>
    match s.durable.findSome? (activeWithId molId) with
    | some m =>
      let d : Digest := ⟨s.nextId, m.protoName, summary, m.parent, m.id⟩
      .ok (d.id, { s with durable := .digest d :: s.durable, nextId := s.nextId + 1 })
    | none => .error ()

/-- Mark an active durable molecule abandoned when its id matches. -/
def burnDur (molId : Nat) : DurableRecord → DurableRecord
  | .active m => if m.id = molId then .abandoned m else .active m
  | other => other

/-- Modelled from the spec: `bd mol burn` — deletes a wisp molecule from the
wisp store; marks a non-wisp molecule abandoned in the permanent store. -/
def burn (s : LedgerState) (molId : Nat) : LedgerState :=
  if s.wisps.any fun m => m.id = molId then
    { s with wisps := s.wisps.filter fun m => ¬ m.id = molId }
  else
    { s with durable := s.durable.map (burnDur molId) }

/-- One ledger operation, as issued by a patrol cycle. -/
inductive LedgerOp where
  | bond (protoName : List Char) (steps : List MolStep) (parent : Option Nat) (wisp : Bool)
  | step (molId stepId : Nat)
  | squash (molId : Nat) (summary : List Char)
  | burn (molId : Nat)

/-- Apply one operation (failed squashes leave the state unchanged). -/
def applyOp (s : LedgerState) : LedgerOp → LedgerState
  | .bond p st par w => (bond s p st par w).2
  | .step m st => stepMol s m st
  | .squash m sum =>
    match squash s m sum with
    | .ok (_, s') => s'
    | .error _ => s
  | .burn m => burn s m

/-- Run a sequence of operations from the empty ledger. -/
def runOps (ops : List LedgerOp) : LedgerState :=
  ops.foldl applyOp initState

/-- Ids of molecules present in the wisp store. -/
def wispIds (s : LedgerState) : List Nat := s.wisps.map (·.id)

/-- The molecule id of a durable record: digests carry none. -/
def durRecordMolId : DurableRecord → Option Nat
  | .active m => some m.id
  | .abandoned m => some m.id
  | .digest _ => none

/-- Ids of molecules (active or abandoned, not digests) present in the durable
store. -/
def durMolIds (s : LedgerState) : List Nat :=
  s.durable.filterMap durRecordMolId

/-- Number of wisp records with a given molecule id. -/
def wispCount (s : LedgerState) (i : Nat) : Nat :=
  s.wisps.countP fun m => m.id = i

/-- Whether a durable record is a digest whose `squashed_from` references a
given id. -/
def isDigestFrom (i : Nat) : DurableRecord → Bool
  | .digest d => d.squashedFrom = i
  | _ => false

/-- Number of durable digests whose `squashed_from` references a given id. -/
def digestFromCount (s : LedgerState) (i : Nat) : Nat :=
  s.durable.countP (isDigestFrom i)

/-- The ledger invariant: wisp-store molecules are wisp-flagged, durable
molecules are not, every stored id is below the allocator, digests reference
only already-allocated ids, and no molecule id is in both stores. -/
def Inv (s : LedgerState) : Prop :=
  (∀ m ∈ s.wisps, m.wisp = true ∧ m.id < s.nextId) ∧
  (∀ m, DurableRecord.active m ∈ s.durable → m.wisp = false ∧ m.id < s.nextId) ∧
  (∀ m, DurableRecord.abandoned m ∈ s.durable → m.wisp = false ∧ m.id < s.nextId) ∧
  (∀ d, DurableRecord.digest d ∈ s.durable → d.id < s.nextId ∧ d.squashedFrom < s.nextId) ∧
  (∀ i, i ∈ wispIds s → i ∉ durMolIds s)

/-- Whether a send operation is the durable `bd create`. -/
def isCreateOp : SendOp → Bool
  | .createRecord .. => true
  | _ => false

/-- Number of labels in a label list carrying a given tag prefix. -/
def countLabels (labels : List (List Char)) (tag : List Char) : Nat :=
  labels.countP fun l => tag.isPrefixOf l

/-- A nudge environment in which no tmux session exists and tmux rejects every
send. -/
def envNoSessions : NudgeEnv :=
  ⟨"mayor".data, fun _ => .ok false, fun _ => false, fun _ => true⟩

/-- A nudge environment in which every session exists and every send succeeds. -/
def envAllSessions : NudgeEnv :=
  ⟨"mayor".data, fun _ => .ok true, fun _ => true, fun _ => true⟩

/-- A mail environment whose create succeeds but whose best-effort side
operations (pin, banner) would all fail. -/
def mailEnvSideFail : MailEnv :=
  ⟨.ok "gt-1".data, false, fun _ => .ok true, false⟩

/-- A concrete pinned urgent request used to witness the Send theorems. -/
def msgSample : Message :=
  ⟨"wyvern/Toast".data, "gastown/furiosa".data, "subj".data, "body".data,
   .urgent, .request, [], [], true⟩

/-! ## Lemmas about `splitN2` -/

theorem splitN2_eq_some {sep : Char} :
    ∀ {s pre post : List Char}, splitN2 sep s = (pre, some post) →
      s = pre ++ sep :: post ∧ sep ∉ pre := by
  intro s
  induction s with
  | nil => intro pre post h; simp [splitN2] at h
  | cons c rest ih =>
    intro pre post h
    by_cases hc : c = sep
    · subst hc
      simp [splitN2] at h
      obtain ⟨h1, h2⟩ := h
      subst h1; subst h2
      simp
    · simp [splitN2, hc] at h
      rcases hrest : (splitN2 sep rest) with ⟨p, q⟩
      rw [hrest] at h
      obtain ⟨h1, h2⟩ := h
      subst h1
      rcases q with _ | q'
      · simp at h2
      · simp at h2; subst h2
        obtain ⟨hs, hmem⟩ := ih hrest
        constructor
        · simp [hs]
        · simp [hmem]
          exact fun he => hc he.symm

theorem splitN2_eq_none {sep : Char} :
    ∀ {s pre : List Char}, splitN2 sep s = (pre, none) → pre = s ∧ sep ∉ s := by
  intro s
  induction s with
  | nil => intro pre h; simp [splitN2] at h; simp [h]
  | cons c rest ih =>
    intro pre h
    by_cases hc : c = sep
    · subst hc; simp [splitN2] at h
    · simp [splitN2, hc] at h
      rcases hrest : (splitN2 sep rest) with ⟨p, q⟩
      rw [hrest] at h
      obtain ⟨h1, h2⟩ := h
      rcases q with _ | q'
      · obtain ⟨hp, hmem⟩ := ih hrest
        subst h1; subst hp
        constructor
        · rfl
        · simp [hmem]
          exact fun he => hc he.symm
      · simp at h2

theorem splitN2_append {sep : Char} :
    ∀ {pre : List Char} (post : List Char), sep ∉ pre →
      splitN2 sep (pre ++ sep :: post) = (pre, some post) := by
  intro pre
  induction pre with
  | nil => intro post _; simp [splitN2]
  | cons c rest ih =>
    intro post h
    have hc : ¬ c = sep := by
      intro he; exact h (by simp [he])
    have hrest : sep ∉ rest := fun hm => h (by simp [hm])
    simp [splitN2, hc, ih post hrest]

theorem splitN2_no_sep {sep : Char} :
    ∀ {s : List Char}, sep ∉ s → splitN2 sep s = (s, none) := by
  intro s
  induction s with
  | nil => intro _; rfl
  | cons c rest ih =>
    intro h
    have hc : ¬ c = sep := by
      intro he; exact h (by simp [he])
    have hrest : sep ∉ rest := fun hm => h (by simp [hm])
    simp [splitN2, hc, ih hrest]

/-! ## Lemmas about `parseAddress` and `addressToSessionID` -/

theorem parseAddress_ok {addr r n : List Char} :
    parseAddress addr = .ok (r, n) →
      addr = r ++ '/' :: n ∧ '/' ∉ r ∧ r ≠ [] ∧ n ≠ [] := by
  intro h
  unfold parseAddress at h
  rcases hs : (splitN2 '/' addr) with ⟨p, q⟩
  rw [hs] at h
  rcases q with _ | q'
  · simp at h
  · by_cases hemp : p = [] ∨ q' = []
    · simp [hemp] at h
    · simp [hemp] at h
      push_neg at hemp
      obtain ⟨h1, h2⟩ := h
      subst h1; subst h2
      obtain ⟨hmk, hmem⟩ := splitN2_eq_some hs
      exact ⟨hmk, hmem, hemp.1, hemp.2⟩

theorem parseAddress_mk {r n : List Char} (hsep : '/' ∉ r) (hr : r ≠ []) (hn : n ≠ []) :
    parseAddress (r ++ '/' :: n) = .ok (r, n) := by
  unfold parseAddress
  rw [splitN2_append n hsep]
  simp [hr, hn]

/-- A prefix containing no separator char transfers across the separator:
if `p` is a prefix of `r ++ c :: n` and `c ∉ p`, then `p` is a prefix of `r`. -/
theorem prefix_of_append_sep {p : List Char} {c : Char} :
    ∀ {r n : List Char}, c ∉ p → p <+: (r ++ c :: n) → p <+: r := by
  induction p with
  | nil => intro r n _ _; exact List.nil_prefix
  | cons a p' ih =>
    intro r n hc hpre
    rcases r with _ | ⟨b, r'⟩
    · simp at hpre
      obtain ⟨h1, _⟩ := hpre
      exact absurd (by simp [h1] : c ∈ a :: p') hc
    · simp only [List.cons_append, List.cons_prefix_cons] at hpre
      obtain ⟨h1, h2⟩ := hpre
      subst h1
      have hc' : c ∉ p' := fun hm => hc (by simp [hm])
      exact List.cons_prefix_cons.mpr ⟨rfl, ih hc' h2⟩

/-- Splitting on a separator absent from both left parts is injective. -/
theorem append_sep_inj {c : Char} :
    ∀ {xs ys as bs : List Char}, c ∉ xs → c ∉ ys →
      xs ++ c :: as = ys ++ c :: bs → xs = ys ∧ as = bs := by
  intro xs
  induction xs with
  | nil =>
    intro ys as bs _ hy h
    rcases ys with _ | ⟨b, ys'⟩
    · simp at h; simp [h]
    · simp at h
      obtain ⟨h1, _⟩ := h
      exact absurd (by simp [h1] : c ∈ b :: ys') hy
  | cons a xs' ih =>
    intro ys as bs hx hy h
    rcases ys with _ | ⟨b, ys'⟩
    · simp at h
      obtain ⟨h1, _⟩ := h
      exact absurd (by simp [h1] : c ∈ a :: xs') hx
    · simp at h
      obtain ⟨h1, h2⟩ := h
      subst h1
      have hx' : c ∉ xs' := fun hm => hx (by simp [hm])
      have hy' : c ∉ ys' := fun hm => hy (by simp [hm])
      obtain ⟨e1, e2⟩ := ih hx' hy' h2
      exact ⟨by rw [e1], e2⟩

/-- Shape of the session id for a well-formed, non-mayor `rig/name` address. -/
theorem addressToSessionID_eq {r n : List Char}
    (hsep : '/' ∉ r) (hn : n ≠ []) (hm : ¬ "mayor".data <+: r) :
    addressToSessionID (r ++ '/' :: n) = "gt-".data ++ r ++ '-' :: n := by
  have hm' : ¬ ("mayor".data.isPrefixOf (r ++ '/' :: n) = true) := by
    rw [ List.isPrefixOf_iff_prefix]
    intro hpre
    have hcm : '/' ∉ "mayor".data := by decide
    exact hm (prefix_of_append_sep hcm hpre)
  unfold addressToSessionID
  rw [if_neg hm', splitN2_append n hsep]
  simp [hn]

/-! ## Claim theorems: addressing -/

/-- **C1** (amended). Parsing then session-id derivation is deterministic (the
embedding is a pure function of the address, so the same address always yields
the same identifier), and it is injective across distinct (rig, name) pairs
provided the rig components contain no '-' and do not begin with "mayor".
Unrestricted injectivity fails: see `addr_sessionID_not_injective`. -/
theorem addr_sessionID_injective
    (s₁ s₂ r₁ n₁ r₂ n₂ : List Char)
    (h₁ : parseAddress s₁ = .ok (r₁, n₁)) (h₂ : parseAddress s₂ = .ok (r₂, n₂))
    (hm₁ : ¬ "mayor".data <+: r₁) (hm₂ : ¬ "mayor".data <+: r₂)
    (hd₁ : '-' ∉ r₁) (hd₂ : '-' ∉ r₂)
    (heq : addressToSessionID s₁ = addressToSessionID s₂) :
    r₁ = r₂ ∧ n₁ = n₂ := by
  obtain ⟨hs₁, hsep₁, hr₁, hn₁⟩ := parseAddress_ok h₁
  obtain ⟨hs₂, hsep₂, hr₂, hn₂⟩ := parseAddress_ok h₂
  subst hs₁; subst hs₂
  rw [addressToSessionID_eq hsep₁ hn₁ hm₁, addressToSessionID_eq hsep₂ hn₂ hm₂] at heq
  have heq' : r₁ ++ '-' :: n₁ = r₂ ++ '-' :: n₂ := by
    have h3 : "gt-".data ++ (r₁ ++ '-' :: n₁) = "gt-".data ++ (r₂ ++ '-' :: n₂) := by
      simpa [List.append_assoc] using heq
    exact List.append_cancel_left h3
  exact append_sep_inj hd₁ hd₂ heq'

/-- **C1** witness: the injectivity theorem applied at the address "a/b". -/
theorem addr_sessionID_injective_witness :
    "a".data = "a".data ∧ "b".data = "b".data :=
  addr_sessionID_injective "a/b".data "a/b".data "a".data "b".data "a".data "b".data
    rfl rfl (by decide) (by decide) (by decide) (by decide) rfl

/-- **C1** counterexample: parse-then-sessionID is not injective across
distinct (rig, name) pairs — "a/b-c" and "a-b/c" parse to distinct pairs yet
share the session id "gt-a-b-c". -/
theorem addr_sessionID_not_injective :
    parseAddress "a/b-c".data = .ok ("a".data, "b-c".data) ∧
    parseAddress "a-b/c".data = .ok ("a-b".data, "c".data) ∧
    (("a".data, "b-c".data) : List Char × List Char) ≠ ("a-b".data, "c".data) ∧
    addressToSessionID "a/b-c".data = addressToSessionID "a-b/c".data :=
  ⟨rfl, rfl, by decide, rfl⟩

/-- **C4**: every malformed address — one missing the '/' separator, one with
an empty rig component (a leading '/'), or one with an empty name component
(nothing after the first '/') — fails with InvalidFormat carrying the raw
input, so no partially resolved address is ever returned. The spec's examples
"badformat", "/name" and "rig/" fall under the three categories. -/
theorem parse_malformed_invalidFormat (s : List Char)
    (h : '/' ∉ s ∨ (∃ t, s = '/' :: t) ∨ (∃ p, '/' ∉ p ∧ s = p ++ ['/'])) :
    parseAddress s = .error (.invalidFormat s) := by
  rcases h with h | ⟨t, rfl⟩ | ⟨p, hp, rfl⟩
  · unfold parseAddress
    rw [splitN2_no_sep h]
  · unfold parseAddress
    have h1 : splitN2 '/' ('/' :: t) = ([], some t) := by simp [splitN2]
    rw [h1]; simp
  · unfold parseAddress
    have h1 : p ++ ['/'] = p ++ '/' :: ([] : List Char) := rfl
    rw [h1, splitN2_append [] hp]
    simp

/-- **C4** witness: the malformed-address theorem applied at "badformat",
"/name" and "rig/". -/
theorem parse_malformed_invalidFormat_witness :
    parseAddress "badformat".data = .error (.invalidFormat "badformat".data) ∧
    parseAddress "/name".data = .error (.invalidFormat "/name".data) ∧
    parseAddress "rig/".data = .error (.invalidFormat "rig/".data) :=
  ⟨parse_malformed_invalidFormat _ (Or.inl (by decide)),
   parse_malformed_invalidFormat _ (Or.inr (Or.inl ⟨"name".data, rfl⟩)),
   parse_malformed_invalidFormat _ (Or.inr (Or.inr ⟨"rig".data, by decide, rfl⟩))⟩

/-- **C9** (amended): only the mayor address is normalized across syntactically
different variants — "mayor" and "mayor/" both map to the session id
"gt-mayor" — while rig/name addresses are not normalized: a trailing slash
yields a different session identifier. -/
theorem sessionID_normalization :
    addressToSessionID "mayor".data = "gt-mayor".data ∧
    addressToSessionID "mayor/".data = "gt-mayor".data ∧
    addressToSessionID "x/y".data = "gt-x-y".data ∧
    addressToSessionID "x/y/".data ≠ addressToSessionID "x/y".data :=
  ⟨rfl, rfl, rfl, by decide⟩

/-- **C9** counterexample: the trailing-slash variant of a rig/name address is
not normalized to the same canonical form — "x/y/" and "x/y" yield different
parses and different session identifiers, so lookups disagree. -/
theorem sessionID_trailing_slash_not_normalized :
    addressToSessionID "x/y/".data ≠ addressToSessionID "x/y".data ∧
    parseAddress "x/y/".data = .ok ("x".data, "y/".data) ∧
    parseAddress "x/y".data = .ok ("x".data, "y".data) :=
  ⟨by decide, rfl, rfl⟩

/-- **C10**: every recipient address beginning with "mayor" — including
"mayorette/worker" or a rig literally named with a "mayor" prefix — derives
the mayor session id "gt-mayor", and every live-notification banner `Send`
issues for such a message targets the session "gt-mayor". -/
theorem mayor_prefix_sessionID (s : List Char)
    (h : ("mayor".data).isPrefixOf s = true) :
    addressToSessionID s = "gt-mayor".data ∧
    ∀ (env : MailEnv) (msg : Message), msg.sendTo = s →
      ∀ sid sender subj, SendOp.sendBanner sid sender subj ∈ (Send env msg).2 →
        sid = "gt-mayor".data := by
  have hid : addressToSessionID s = "gt-mayor".data := by
    unfold addressToSessionID
    rw [if_pos h]
  refine ⟨hid, ?_⟩
  intro env msg hto sid sender subj hmem
  unfold Send at hmem
  rcases hcr : env.createResult with e | stdout <;> rw [hcr] at hmem
  · simp at hmem
  · simp only [List.mem_cons, List.mem_append] at hmem
    rcases hmem with hmem | hmem | hmem
    · exact absurd hmem (by simp)
    · by_cases hpin : msg.pinned = true ∧ ¬ trimSpace stdout = []
      · simp [hpin] at hmem
      · simp [hpin] at hmem
    · unfold notifyRecipient at hmem
      rw [hto, hid] at hmem
      have hne : ¬ ("gt-mayor".data = ([] : List Char)) := by decide
      rw [if_neg hne] at hmem
      rcases hhs : env.hasSession "gt-mayor".data with e' | b <;> rw [hhs] at hmem
      · simp at hmem
      · rcases b with _ | _
        · simp at hmem
        · by_cases hbo : env.bannerOk = true
          · simp [hbo] at hmem
            exact hmem.1
          · simp [hbo] at hmem
            exact hmem.1

/-- **C10** witness: the theorem applied at the address "mayorette/worker",
which is not the mayor address at all. -/
theorem mayor_prefix_sessionID_witness :
    addressToSessionID "mayorette/worker".data = "gt-mayor".data :=
  (mayor_prefix_sessionID "mayorette/worker".data (by decide)).1

/-! ## Claim theorems: the nudge command -/

/-- **C2**: for every target and message, whenever `runNudge` reaches the
injection at all, it performs exactly the two-phase protocol — one literal
paste of the (sender-prefixed) message, then the 500 ms settle delay, then
exactly one Enter submission — in that order, regardless of message length;
a run that never injects performs no injection operation at all. -/
theorem nudge_two_phase (env : NudgeEnv) (target message : List Char) :
    injectionOps (runNudge env target message).2 = [] ∨
    ∃ s, injectionOps (runNudge env target message).2 =
      [.pasteLiteral s (prefixedMessage env.sender message),
       .settleDelay 500, .sendEnter s] := by
  unfold runNudge
  by_cases h1 : target = "deacon".data
  · rw [if_pos h1]
    rcases env.hasSession deaconSessionName with e | b
    · left; rfl
    · rcases b
      · left; rfl
      · rcases hso : env.sendOk deaconSessionName
        · right; exact ⟨deaconSessionName, rfl⟩
        · right; exact ⟨deaconSessionName, rfl⟩
  · rw [if_neg h1]
    by_cases h2 : '/' ∈ target
    · rw [if_pos h2]
      rcases parseAddress target with e | ⟨rigName, polecatName⟩
      · left; rfl
      · by_cases hcp : ("crew/".data).isPrefixOf polecatName = true
        · simp only [hcp, if_true]
          rcases hso : env.sendOk (crewSessionName rigName (polecatName.drop 5))
          · right; exact ⟨_, rfl⟩
          · right; exact ⟨_, rfl⟩
        · simp only [Bool.not_eq_true] at hcp
          simp only [hcp, Bool.false_eq_true, if_false]
          rcases hre : env.rigExists rigName
          · left; rfl
          · rcases hso : env.sendOk (managerSessionName rigName polecatName)
            · right; exact ⟨_, rfl⟩
            · right; exact ⟨_, rfl⟩
    · rw [if_neg h2]
      rcases env.hasSession target with e | b
      · left; rfl
      · rcases b
        · left; rfl
        · rcases hso : env.sendOk target
          · right; exact ⟨target, rfl⟩
          · right; exact ⟨target, rfl⟩

/-- **C3** counterexample: with no session in existence (the oracle answers
false for every session id), nudging the special target "deacon" reports
success — refuting "nudge fails with SessionNotFound for every target whose
session does not exist, including the deacon target". -/
theorem nudge_deacon_missing_reports_success :
    (∀ s, envNoSessions.hasSession s = .ok false) ∧
    (runNudge envNoSessions "deacon".data "hi".data).1 = .ok () :=
  ⟨fun _ => rfl, rfl⟩

/-- **C3** (amended): when the target's session does not exist — the session
oracle answers false everywhere and tmux rejects every send — `runNudge` fails
for every raw session-name target and every `rig/...` target, but the special
target "deacon" is the deliberate exception: a missing deacon session yields
success after a skipped-nudge notice instead of an error. -/
theorem nudge_missing_session (env : NudgeEnv) (target message : List Char)
    (habs : ∀ s, env.hasSession s = .ok false)
    (hsend : ∀ s, env.sendOk s = false) :
    (target = "deacon".data → (runNudge env target message).1 = .ok ()) ∧
    (target ≠ "deacon".data → ∀ u, (runNudge env target message).1 ≠ .ok u) := by
  constructor
  · intro h1
    unfold runNudge
    rw [if_pos h1, habs deaconSessionName]
  · intro h1 u
    unfold runNudge
    rw [if_neg h1]
    by_cases h2 : '/' ∈ target
    · rw [if_pos h2]
      rcases parseAddress target with e | ⟨rigName, polecatName⟩
      · intro hc; cases hc
      · by_cases hcp : ("crew/".data).isPrefixOf polecatName = true
        · simp only [hcp, if_true, hsend]
          intro hc; cases hc
        · simp only [Bool.not_eq_true] at hcp
          simp only [hcp, Bool.false_eq_true, if_false]
          rcases env.rigExists rigName
          · intro hc; cases hc
          · simp only [hsend]
            intro hc; cases hc
    · rw [if_neg h2, habs target]
      intro hc; cases hc

/-- **C3** witness: the amended theorem applied to the raw target "x" in the
no-sessions environment. -/
theorem nudge_missing_session_witness :
    ("x".data = "deacon".data →
      (runNudge envNoSessions "x".data "hi".data).1 = .ok ()) ∧
    ("x".data ≠ "deacon".data →
      ∀ u, (runNudge envNoSessions "x".data "hi".data).1 ≠ .ok u) :=
  nudge_missing_session envNoSessions "x".data "hi".data (fun _ => rfl) (fun _ => rfl)

/-! ## Claim theorems: the mail router -/

/-- The notification part of a Send trace is a liveness query possibly followed
by one banner to the recipient's derived session; it never issues create or pin
operations. -/
theorem notifyRecipient_ops_shape (env : MailEnv) (msg : Message) :
    (notifyRecipient env msg).2 = [] ∨
    (∃ sid, (notifyRecipient env msg).2 = [.queryLive sid]) ∨
    (∃ sid, (notifyRecipient env msg).2 =
      [.queryLive sid, .sendBanner sid msg.sendFrom msg.subject]) := by
  unfold notifyRecipient
  by_cases h : addressToSessionID msg.sendTo = []
  · rw [if_pos h]; left; rfl
  · rw [if_neg h]
    rcases env.hasSession (addressToSessionID msg.sendTo) with e | b
    · right; left; exact ⟨_, rfl⟩
    · rcases b
      · right; left; exact ⟨_, rfl⟩
      · rcases env.bannerOk
        · right; right; exact ⟨_, rfl⟩
        · right; right; exact ⟨_, rfl⟩

/-- **C5**: once the durable create has succeeded, `Send` returns success and
issues exactly one create — it never fails or retries on account of the
best-effort side operations, whatever the pin outcome, session liveness or
banner outcome in the environment — and a pin is attempted only when `pinned`
is set (and then only after the successful create). -/
theorem send_success_despite_side_ops (env : MailEnv) (msg : Message)
    (stdout : List Char) (h : env.createResult = .ok stdout) :
    (Send env msg).1 = .ok () ∧
    ((Send env msg).2.countP isCreateOp) = 1 ∧
    (∀ i ok, SendOp.pinRecord i ok ∈ (Send env msg).2 → msg.pinned = true) := by
  refine ⟨?_, ?_, ?_⟩
  · unfold Send
    rw [h]
  · unfold Send
    rw [h]
    simp only [List.countP_cons, List.countP_append]
    have hpin : (if msg.pinned = true ∧ ¬trimSpace stdout = []
        then [SendOp.pinRecord (trimSpace stdout) env.pinOk]
        else []).countP isCreateOp = 0 := by
      by_cases hc : msg.pinned = true ∧ ¬trimSpace stdout = []
      · rw [if_pos hc]; rfl
      · rw [if_neg hc]; rfl
    have hnot : (notifyRecipient env msg).2.countP isCreateOp = 0 := by
      rcases notifyRecipient_ops_shape env msg with hs | ⟨sid, hs⟩ | ⟨sid, hs⟩ <;>
        rw [hs] <;> rfl
    rw [hpin, hnot]
    rfl
  · intro i ok hmem
    unfold Send at hmem
    rw [h] at hmem
    simp only [List.mem_cons, List.mem_append] at hmem
    rcases hmem with hmem | hmem | hmem
    · exact absurd hmem (by simp)
    · by_cases hc : msg.pinned = true ∧ ¬trimSpace stdout = []
      · exact hc.1
      · rw [if_neg hc] at hmem
        simp at hmem
    · rcases notifyRecipient_ops_shape env msg with hs | ⟨sid, hs⟩ | ⟨sid, hs⟩ <;>
        rw [hs] at hmem <;> simp at hmem

/-- **C5** witness: the theorem applied to a pinned message in an environment
whose create succeeds while pin and banner would fail. -/
theorem send_success_despite_side_ops_witness :
    (Send mailEnvSideFail msgSample).1 = .ok () :=
  (send_success_despite_side_ops mailEnvSideFail msgSample "gt-1".data rfl).1

/-- **C6**: the label set `Send` attaches always encodes the sender — the
`from:<sender>` label is the first label and the only one tagged `from:` —
encodes the thread and reply-to exactly when those fields are non-empty, and
encodes the message type exactly when it is not the default Notification;
and the single create operation of every `Send` call carries exactly this
label set. -/
theorem send_labels_encoding (env : MailEnv) (msg : Message) :
    (Send env msg).2.head? = some (.createRecord (addressToIdentity msg.sendTo)
      msg.subject msg.body (PriorityToBeads msg.priority) (sendLabels msg)) ∧
    (sendLabels msg).head? = some ("from:".data ++ addressToIdentity msg.sendFrom) ∧
    countLabels (sendLabels msg) "from:".data = 1 ∧
    countLabels (sendLabels msg) "thread:".data =
      (if msg.threadID = [] then 0 else 1) ∧
    countLabels (sendLabels msg) "reply-to:".data =
      (if msg.replyTo = [] then 0 else 1) ∧
    countLabels (sendLabels msg) "msg-type:".data =
      (if msg.msgType = .notification then 0 else 1) := by
  refine ⟨?_, ?_⟩
  · unfold Send
    rcases env.createResult with e | stdout <;> rfl
  · rcases hmt : msg.msgType with _ | _ | _ <;>
      by_cases ht : msg.threadID = [] <;>
      by_cases hr : msg.replyTo = [] <;>
      simp only [sendLabels, countLabels, hmt, ht, hr, if_pos, if_neg,
        ite_true, ite_false, MsgType.render] <;>
      refine ⟨rfl, ?_, ?_, ?_, ?_⟩ <;>
      simp [List.countP_cons, List.countP_append, ht, hr]

/-! ## Lemmas about the wisp ledger -/

theorem stepIfMatch_id (molId stepId : Nat) (m : Molecule) :
    (stepIfMatch molId stepId m).id = m.id ∧
    (stepIfMatch molId stepId m).wisp = m.wisp := by
  unfold stepIfMatch
  by_cases h : m.id = molId <;> simp [h]

theorem mem_durMolIds_lt {s : LedgerState} (h : Inv s) {i : Nat}
    (hi : i ∈ durMolIds s) : i < s.nextId := by
  obtain ⟨-, h2, h3, -, -⟩ := h
  simp only [durMolIds, List.mem_filterMap] at hi
  obtain ⟨r, hr, hfr⟩ := hi
  rcases r with m | m | d
  · simp only [durRecordMolId, Option.some.injEq] at hfr
    subst hfr
    exact (h2 m hr).2
  · simp only [durRecordMolId, Option.some.injEq] at hfr
    subst hfr
    exact (h3 m hr).2
  · simp [durRecordMolId] at hfr

theorem mem_wispIds_lt {s : LedgerState} (h : Inv s) {i : Nat}
    (hi : i ∈ wispIds s) : i < s.nextId := by
  obtain ⟨h1, -, -, -, -⟩ := h
  simp only [wispIds, List.mem_map] at hi
  obtain ⟨m, hm, rfl⟩ := hi
  exact (h1 m hm).2

theorem inv_bond {s : LedgerState} (h : Inv s) (p : List Char) (st : List MolStep)
    (par : Option Nat) (w : Bool) : Inv (bond s p st par w).2 := by
  obtain ⟨h1, h2, h3, h4, h5⟩ := id h
  rcases w
  · -- non-wisp: created in the durable store
    have hb : (bond s p st par false).2 =
        { s with durable := DurableRecord.active ⟨s.nextId, p, st, false, par⟩ :: s.durable,
                 nextId := s.nextId + 1 } := rfl
    rw [hb]
    refine ⟨?_, ?_, ?_, ?_, ?_⟩
    · intro m hm
      exact ⟨(h1 m hm).1, Nat.lt_succ_of_lt (h1 m hm).2⟩
    · intro m hm
      rcases List.mem_cons.mp hm with hm | hm
      · injection hm with hm
        subst hm
        exact ⟨rfl, Nat.lt_succ_self _⟩
      · exact ⟨(h2 m hm).1, Nat.lt_succ_of_lt (h2 m hm).2⟩
    · intro m hm
      rcases List.mem_cons.mp hm with hm | hm
      · exact absurd hm (by simp)
      · exact ⟨(h3 m hm).1, Nat.lt_succ_of_lt (h3 m hm).2⟩
    · intro d hd
      rcases List.mem_cons.mp hd with hd | hd
      · exact absurd hd (by simp)
      · exact ⟨Nat.lt_succ_of_lt (h4 d hd).1, Nat.lt_succ_of_lt (h4 d hd).2⟩
    · intro i hi hdi
      have hdi' : i ∈ (s.nextId :: durMolIds s) := by
        simpa [durMolIds, durRecordMolId] using hdi
      rcases List.mem_cons.mp hdi' with rfl | hdi'
      · exact absurd (mem_wispIds_lt h hi) (by omega)
      · exact h5 i hi hdi'
  · -- wisp: created in the ephemeral store
    have hb : (bond s p st par true).2 =
        { s with wisps := ⟨s.nextId, p, st, true, par⟩ :: s.wisps,
                 nextId := s.nextId + 1 } := rfl
    rw [hb]
    refine ⟨?_, ?_, ?_, ?_, ?_⟩
    · intro m hm
      rcases List.mem_cons.mp hm with rfl | hm
      · exact ⟨rfl, Nat.lt_succ_self _⟩
      · exact ⟨(h1 m hm).1, Nat.lt_succ_of_lt (h1 m hm).2⟩
    · intro m hm
      exact ⟨(h2 m hm).1, Nat.lt_succ_of_lt (h2 m hm).2⟩
    · intro m hm
      exact ⟨(h3 m hm).1, Nat.lt_succ_of_lt (h3 m hm).2⟩
    · intro d hd
      exact ⟨Nat.lt_succ_of_lt (h4 d hd).1, Nat.lt_succ_of_lt (h4 d hd).2⟩
    · intro i hi hdi
      have hi' : i ∈ (s.nextId :: wispIds s) := by
        simpa [wispIds] using hi
      rcases List.mem_cons.mp hi' with rfl | hi'
      · exact absurd (mem_durMolIds_lt h hdi) (by omega)
      · exact h5 i hi' hdi

theorem filterMap_stepDur (molId stepId : Nat) :
    ∀ l : List DurableRecord,
      (l.map (stepDur molId stepId)).filterMap durRecordMolId =
        l.filterMap durRecordMolId := by
  intro l
  induction l with
  | nil => rfl
  | cons r t ih =>
    rcases r with m | m | d
    · simp [stepDur, durRecordMolId, (stepIfMatch_id molId stepId m).1, ih]
    · simp [stepDur, durRecordMolId, ih]
    · simp [stepDur, durRecordMolId, ih]

theorem inv_stepMol {s : LedgerState} (h : Inv s) (molId stepId : Nat) :
    Inv (stepMol s molId stepId) := by
  obtain ⟨h1, h2, h3, h4, h5⟩ := id h
  refine ⟨?_, ?_, ?_, ?_, ?_⟩
  · intro m hm
    simp only [stepMol, List.mem_map] at hm
    obtain ⟨m0, hm0, rfl⟩ := hm
    have hid := stepIfMatch_id molId stepId m0
    constructor
    · rw [hid.2]; exact (h1 m0 hm0).1
    · rw [hid.1]; exact (h1 m0 hm0).2
  · intro m hm
    simp only [stepMol, List.mem_map] at hm
    obtain ⟨r0, hr0, heq⟩ := hm
    rcases r0 with m0 | m0 | d0
    · simp only [stepDur, DurableRecord.active.injEq] at heq
      subst heq
      have hid := stepIfMatch_id molId stepId m0
      constructor
      · rw [hid.2]; exact (h2 m0 hr0).1
      · rw [hid.1]; exact (h2 m0 hr0).2
    · simp [stepDur] at heq
    · simp [stepDur] at heq
  · intro m hm
    simp only [stepMol, List.mem_map] at hm
    obtain ⟨r0, hr0, heq⟩ := hm
    rcases r0 with m0 | m0 | d0
    · simp [stepDur] at heq
    · simp only [stepDur, DurableRecord.abandoned.injEq] at heq
      subst heq
      exact h3 m0 hr0
    · simp [stepDur] at heq
  · intro d hd
    simp only [stepMol, List.mem_map] at hd
    obtain ⟨r0, hr0, heq⟩ := hd
    rcases r0 with m0 | m0 | d0
    · simp [stepDur] at heq
    · simp [stepDur] at heq
    · simp only [stepDur, DurableRecord.digest.injEq] at heq
      subst heq
      exact h4 d0 hr0
  · intro i hi hdi
    have hw : wispIds (stepMol s molId stepId) = wispIds s := by
      simp only [wispIds, stepMol, List.map_map]
      apply List.map_congr_left
      intro m _
      exact (stepIfMatch_id molId stepId m).1
    have hd : durMolIds (stepMol s molId stepId) = durMolIds s := by
      simp only [durMolIds, stepMol]
      exact filterMap_stepDur molId stepId s.durable
    rw [hw] at hi
    rw [hd] at hdi
    exact h5 i hi hdi

theorem inv_squash {s : LedgerState} (h : Inv s) (molId : Nat) (summary : List Char)
    {digId : Nat} {s' : LedgerState}
    (hsq : squash s molId summary = .ok (digId, s')) : Inv s' := by
  obtain ⟨h1, h2, h3, h4, h5⟩ := id h
  unfold squash at hsq
  rcases hf : s.wisps.find? (fun m => m.id = molId) with _ | m <;> rw [hf] at hsq
  · rcases hf2 : s.durable.findSome? (activeWithId molId) with _ | m <;>
      rw [hf2] at hsq
    · exact absurd hsq (by simp)
    · -- non-wisp squash: digest added beside the kept molecule
      simp only [Except.ok.injEq, Prod.mk.injEq] at hsq
      obtain ⟨-, hs'⟩ := hsq
      subst hs'
      have hmmem : m.id < s.nextId := by
        obtain ⟨r, hr, hfr⟩ := List.exists_of_findSome?_eq_some hf2
        rcases r with m0 | m0 | d0
        · simp only [activeWithId] at hfr
          by_cases hid : m0.id = molId
          · rw [if_pos hid] at hfr
            injection hfr with hfr
            subst hfr
            exact (h2 m0 hr).2
          · rw [if_neg hid] at hfr
            exact absurd hfr (by simp)
        · simp [activeWithId] at hfr
        · simp [activeWithId] at hfr
      refine ⟨?_, ?_, ?_, ?_, ?_⟩
      · intro m' hm'
        exact ⟨(h1 m' hm').1, Nat.lt_succ_of_lt (h1 m' hm').2⟩
      · intro m' hm'
        rcases List.mem_cons.mp hm' with hm' | hm'
        · exact absurd hm' (by simp)
        · exact ⟨(h2 m' hm').1, Nat.lt_succ_of_lt (h2 m' hm').2⟩
      · intro m' hm'
        rcases List.mem_cons.mp hm' with hm' | hm'
        · exact absurd hm' (by simp)
        · exact ⟨(h3 m' hm').1, Nat.lt_succ_of_lt (h3 m' hm').2⟩
      · intro d hd
        rcases List.mem_cons.mp hd with hd | hd
        · injection hd with hd
          subst hd
          exact ⟨Nat.lt_succ_self _, Nat.lt_succ_of_lt hmmem⟩
        · exact ⟨Nat.lt_succ_of_lt (h4 d hd).1, Nat.lt_succ_of_lt (h4 d hd).2⟩
      · intro i hi hdi
        have hdi' : i ∈ durMolIds s := by
          simpa [durMolIds, durRecordMolId] using hdi
        exact h5 i hi hdi'
  · -- wisp squash: wisp deleted, digest created
    simp only [Except.ok.injEq, Prod.mk.injEq] at hsq
    obtain ⟨-, hs'⟩ := hsq
    subst hs'
    have hmmem : m.id < s.nextId := (h1 m (List.mem_of_find?_eq_some hf)).2
    refine ⟨?_, ?_, ?_, ?_, ?_⟩
    · intro m' hm'
      have hm'' : m' ∈ s.wisps := (List.mem_filter.mp hm').1
      exact ⟨(h1 m' hm'').1, Nat.lt_succ_of_lt (h1 m' hm'').2⟩
    · intro m' hm'
      rcases List.mem_cons.mp hm' with hm' | hm'
      · exact absurd hm' (by simp)
      · exact ⟨(h2 m' hm').1, Nat.lt_succ_of_lt (h2 m' hm').2⟩
    · intro m' hm'
      rcases List.mem_cons.mp hm' with hm' | hm'
      · exact absurd hm' (by simp)
      · exact ⟨(h3 m' hm').1, Nat.lt_succ_of_lt (h3 m' hm').2⟩
    · intro d hd
      rcases List.mem_cons.mp hd with hd | hd
      · injection hd with hd
        subst hd
        exact ⟨Nat.lt_succ_self _, Nat.lt_succ_of_lt hmmem⟩
      · exact ⟨Nat.lt_succ_of_lt (h4 d hd).1, Nat.lt_succ_of_lt (h4 d hd).2⟩
    · intro i hi hdi
      have hi' : i ∈ wispIds s := by
        simp only [wispIds, List.mem_map] at hi ⊢
        obtain ⟨m', hm', rfl⟩ := hi
        exact ⟨m', (List.mem_filter.mp hm').1, rfl⟩
      have hdi' : i ∈ durMolIds s := by
        simpa [durMolIds, durRecordMolId] using hdi
      exact h5 i hi' hdi'

theorem filterMap_burnDur (molId : Nat) :
    ∀ l : List DurableRecord,
      (l.map (burnDur molId)).filterMap durRecordMolId =
        l.filterMap durRecordMolId := by
  intro l
  induction l with
  | nil => rfl
  | cons r t ih =>
    rcases r with m | m | d
    · by_cases hid : m.id = molId <;> simp [burnDur, durRecordMolId, hid, ih]
    · simp [burnDur, durRecordMolId, ih]
    · simp [burnDur, durRecordMolId, ih]

theorem inv_burn {s : LedgerState} (h : Inv s) (molId : Nat) :
    Inv (burn s molId) := by
  obtain ⟨h1, h2, h3, h4, h5⟩ := id h
  unfold burn
  by_cases hany : (s.wisps.any fun m => m.id = molId) = true
  · rw [if_pos hany]
    refine ⟨?_, ?_, ?_, ?_, ?_⟩
    · intro m hm
      exact h1 m (List.mem_filter.mp hm).1
    · exact h2
    · exact h3
    · exact h4
    · intro i hi hdi
      have hi' : i ∈ wispIds s := by
        simp only [wispIds, List.mem_map] at hi ⊢
        obtain ⟨m', hm', rfl⟩ := hi
        exact ⟨m', (List.mem_filter.mp hm').1, rfl⟩
      exact h5 i hi' hdi
  · rw [if_neg hany]
    refine ⟨?_, ?_, ?_, ?_, ?_⟩
    · exact h1
    · intro m hm
      simp only [List.mem_map] at hm
      obtain ⟨r0, hr0, heq⟩ := hm
      rcases r0 with m0 | m0 | d0
      · simp only [burnDur] at heq
        by_cases hid : m0.id = molId
        · rw [if_pos hid] at heq
          exact absurd heq (by simp)
        · rw [if_neg hid] at heq
          injection heq with heq
          subst heq
          exact h2 m0 hr0
      · simp [burnDur] at heq
      · simp [burnDur] at heq
    · intro m hm
      simp only [List.mem_map] at hm
      obtain ⟨r0, hr0, heq⟩ := hm
      rcases r0 with m0 | m0 | d0
      · simp only [burnDur] at heq
        by_cases hid : m0.id = molId
        · rw [if_pos hid] at heq
          injection heq with heq
          subst heq
          exact h2 m0 hr0
        · rw [if_neg hid] at heq
          exact absurd heq (by simp)
      · simp only [burnDur, DurableRecord.abandoned.injEq] at heq
        subst heq
        exact h3 m0 hr0
      · simp [burnDur] at heq
    · intro d hd
      simp only [List.mem_map] at hd
      obtain ⟨r0, hr0, heq⟩ := hd
      rcases r0 with m0 | m0 | d0
      · simp only [burnDur] at heq
        by_cases hid : m0.id = molId
        · rw [if_pos hid] at heq
          exact absurd heq (by simp)
        · rw [if_neg hid] at heq
          exact absurd heq (by simp)
      · simp [burnDur] at heq
      · simp only [burnDur, DurableRecord.digest.injEq] at heq
        subst heq
        exact h4 d0 hr0
    · intro i hi hdi
      have hd : durMolIds { s with durable := s.durable.map (burnDur molId) } =
          durMolIds s := filterMap_burnDur molId s.durable
      rw [hd] at hdi
      exact h5 i hi hdi

theorem inv_applyOp {s : LedgerState} (h : Inv s) (op : LedgerOp) :
    Inv (applyOp s op) := by
  rcases op with ⟨p, st, par, w⟩ | ⟨molId, stepId⟩ | ⟨molId, summary⟩ | molId
  · exact inv_bond h p st par w
  · exact inv_stepMol h molId stepId
  · rcases hsq : squash s molId summary with e | ⟨digId, s'⟩
    · have hred : applyOp s (.squash molId summary) = s := by
        show (match squash s molId summary with
              | .ok (_, s'') => s''
              | .error _ => s) = s
        rw [hsq]
      rw [hred]
      exact h
    · have hred : applyOp s (.squash molId summary) = s' := by
        show (match squash s molId summary with
              | .ok (_, s'') => s''
              | .error _ => s) = s'
        rw [hsq]
      rw [hred]
      exact inv_squash h molId summary hsq
  · exact inv_burn h molId

theorem inv_foldl : ∀ (ops : List LedgerOp) {s : LedgerState}, Inv s →
    Inv (ops.foldl applyOp s) := by
  intro ops
  induction ops with
  | nil => intro s h; exact h
  | cons op rest ih =>
    intro s h
    exact ih (inv_applyOp h op)

theorem inv_initState : Inv initState := by
  refine ⟨?_, ?_, ?_, ?_, ?_⟩ <;> intro x hx <;> simp [initState, wispIds] at hx

theorem inv_runOps (ops : List LedgerOp) : Inv (runOps ops) :=
  inv_foldl ops inv_initState

/-! ## Claim theorems: the wisp ledger -/

/-- **C7**: at every reachable point of the ledger — after any sequence of
bond, step, squash and burn operations from the empty state — every molecule in
the ephemeral store is wisp-flagged, every molecule record in the durable store
(active or abandoned) is non-wisp, and no molecule id is present in both stores
simultaneously. -/
theorem wisp_never_in_both (ops : List LedgerOp) :
    (∀ m ∈ (runOps ops).wisps, m.wisp = true) ∧
    (∀ m, DurableRecord.active m ∈ (runOps ops).durable → m.wisp = false) ∧
    (∀ m, DurableRecord.abandoned m ∈ (runOps ops).durable → m.wisp = false) ∧
    (∀ i, ¬ (i ∈ wispIds (runOps ops) ∧ i ∈ durMolIds (runOps ops))) := by
  obtain ⟨h1, h2, h3, h4, h5⟩ := inv_runOps ops
  exact ⟨fun m hm => (h1 m hm).1, fun m hm => (h2 m hm).1,
    fun m hm => (h3 m hm).1, fun i hx => h5 i hx.1 hx.2⟩

/-- In any state satisfying the ledger invariant, bonding a wisp molecule and
then squashing it succeeds, removes every wisp record with its id, and leaves
exactly one digest referencing it. -/
theorem bond_squash_counts {s : LedgerState} (h : Inv s) (proto : List Char)
    (steps : List MolStep) (parent : Option Nat) (summary : List Char) :
    ∃ digId s2,
      squash (bond s proto steps parent true).2
        (bond s proto steps parent true).1 summary = .ok (digId, s2) ∧
      wispCount s2 (bond s proto steps parent true).1 = 0 ∧
      digestFromCount s2 (bond s proto steps parent true).1 = 1 := by
  obtain ⟨h1, h2, h3, h4, h5⟩ := id h
  have hb1 : (bond s proto steps parent true).1 = s.nextId := rfl
  have hb2 : (bond s proto steps parent true).2 =
      { s with wisps := ⟨s.nextId, proto, steps, true, parent⟩ :: s.wisps,
               nextId := s.nextId + 1 } := rfl
  rw [hb1, hb2]
  have hfind : ({ s with
        wisps := (⟨s.nextId, proto, steps, true, parent⟩ : Molecule) :: s.wisps,
        nextId := s.nextId + 1 } : LedgerState).wisps.find?
      (fun m => m.id = s.nextId) =
      some ⟨s.nextId, proto, steps, true, parent⟩ := by
    apply List.find?_cons_of_pos
    simp
  have hsq : squash { s with
        wisps := (⟨s.nextId, proto, steps, true, parent⟩ : Molecule) :: s.wisps,
        nextId := s.nextId + 1 } s.nextId summary =
      .ok (s.nextId + 1,
        { s with
          wisps := ((⟨s.nextId, proto, steps, true, parent⟩ : Molecule) :: s.wisps).filter
            fun m' => ¬ m'.id = s.nextId,
          durable := .digest ⟨s.nextId + 1, proto, summary, parent, s.nextId⟩ :: s.durable,
          nextId := s.nextId + 2 }) := by
    unfold squash
    rw [hfind]
  rw [hsq]
  refine ⟨s.nextId + 1, _, rfl, ?_, ?_⟩
  · unfold wispCount
    rw [List.countP_eq_zero]
    intro m hm
    have hm' := List.mem_filter.mp hm
    simpa using hm'.2
  · unfold digestFromCount
    show List.countP _ (DurableRecord.digest _ :: s.durable) = 1
    rw [List.countP_cons]
    have hzero : List.countP (isDigestFrom s.nextId) s.durable = 0 := by
      rw [List.countP_eq_zero]
      intro r hr
      rcases r with m | m | d
      · simp [isDigestFrom]
      · simp [isDigestFrom]
      · have hlt := (h4 d hr).2
        simp only [isDigestFrom, decide_eq_true_eq]
        omega
    rw [hzero]
    simp [isDigestFrom]

/-- **C8**: in any reachable ledger state, bonding a wisp molecule and then
squashing it succeeds and leaves zero wisp records with that molecule's id in
the ephemeral store and exactly one digest in the durable store whose
`squashed_from` field references that id. -/
theorem wisp_bond_squash_digest (ops : List LedgerOp) (proto : List Char)
    (steps : List MolStep) (parent : Option Nat) (summary : List Char) :
    ∃ digId s2,
      squash (bond (runOps ops) proto steps parent true).2
        (bond (runOps ops) proto steps parent true).1 summary = .ok (digId, s2) ∧
      wispCount s2 (bond (runOps ops) proto steps parent true).1 = 0 ∧
      digestFromCount s2 (bond (runOps ops) proto steps parent true).1 = 1 :=
  bond_squash_counts (inv_runOps ops) proto steps parent summary

end Gastown
